import Mathlib

/-!
Verification of the manga metadata fetcher (`fetch_metadata.py`).

The development shallowly embeds the program's decision logic:

* the title Matcher (`MangaMetadataFetcher.search_manga`, the best-match
  scan over the candidate list returned by the provider),
* the Field Mapper (`MangaMetadataFetcher.create_details_json` together
  with `MangaMetadataFetcher._map_status`),
* the per-directory orchestrator (`MangaMetadataFetcher.process_manga_directory`)
  and the batch driver (`MangaMetadataFetcher.process_all_manga`).

Network and filesystem outcomes are supplied by an explicit environment
record, and the orchestrator is modelled as a pure function that also
returns the ordered list of observable effects (network calls, sleeps,
file writes) it performs.  Scores, which the source computes by dividing
two small string lengths, are modelled as exact rationals: `mkRat a b`
is the rational number `a / b` (the lemma `score_eq_div` below records
this), built with `mkRat` so that concrete runs of the matcher reduce
inside the kernel.  Python string operations work on code points, so
`lower`/`strip`/`in` are modelled on the string's character list.
-/

namespace FetchMetadata

/-- Python's `str.lower()`, per code point (the titles handled by the
program are covered by `Char.toLower`). -/
def pyLower (s : String) : String := ⟨s.data.map Char.toLower⟩

/-- Python's `str.strip()`: drop leading and trailing whitespace. -/
def pyStrip (s : String) : String :=
  ⟨(((s.data.dropWhile Char.isWhitespace).reverse).dropWhile Char.isWhitespace).reverse⟩

/-- Normalisation applied by the source to the query and to every title
before comparison: `s.lower().strip()`. -/
def pyNorm (s : String) : String := pyStrip (pyLower s)

/-- Python's substring test `needle in hay`, code-point based.  The empty
string is a substring of everything, as in Python. -/
def pySubstr (needle hay : String) : Bool :=
  (List.range (hay.data.length + 1)).any
    (fun i => decide (((hay.data.drop i).take needle.data.length) = needle.data))

/-- One search result from the provider (a `manga` dict in
`search_manga`).  Fields the source reads with `.get` are `Option`s;
`none` models an absent key. -/
structure Candidate where
  title : Option String
  title_english : Option String
  authors : Option (List String)
  synopsis : Option String
  genres : Option (List String)
  status : Option String
  large_image_url : Option String
  image_url : Option String
deriving DecidableEq

/-- Candidate with only the two title fields set, as exercised by the
matcher (`search_manga` reads no other field). -/
def mkCand (t e : Option String) : Candidate :=
  ⟨t, e, none, none, none, none, none, none⟩

/-- Line 64 of the source: `manga.get('title', '').lower().strip()`. -/
def normTitle (c : Candidate) : String := pyNorm (c.title.getD "")

/-- Line 65 of the source:
`manga.get('title_english', '').lower().strip() if manga.get('title_english') else ''`
(an absent or falsy `title_english` normalises to the empty string). -/
def normEnglish (c : Candidate) : String :=
  match c.title_english with
  | some t => if t = "" then "" else pyNorm t
  | none => ""

/-- Line 68 of the source, the exact-match test for one candidate against
the normalised query `q`. -/
def exactQ (q : String) (c : Candidate) : Bool :=
  normTitle c == q || normEnglish c == q

/-- Lines 74/79 of the source: `len(search_title_lower) / max(len(title), 1)`
as an exact rational (`mkRat a b` is `a / b`; see `score_eq_div`). -/
def score (q t : String) : ℚ := mkRat q.length (max t.length 1)

/-- Lines 72-82 of the source: the fuzzy step for one candidate applied to
the running `(best_match, best_score)` pair.  The primary-title substring
test comes first; the alternate title is tested only in the `elif` branch,
i.e. when the primary-title test failed and the normalised alternate title
is non-empty.  The best-so-far pair is replaced only on a strictly greater
score. -/
def fuzzyUpdate (q : String) (c : Candidate) (st : Option Candidate × ℚ) :
    Option Candidate × ℚ :=
  let t := normTitle c
  let e := normEnglish c
  if pySubstr q t || pySubstr t q then
    let s := score q t
    if s > st.2 then (some c, s) else st
  else if e != "" && (pySubstr q e || pySubstr e q) then
    let s := score q e
    if s > st.2 then (some c, s) else st
  else st

/-- The per-candidate score the source actually uses, read off from
`fuzzyUpdate` (see `fuzzyUpdate_effScore`): the primary-title score when
the primary substring test passes, else the alternate-title score when
that `elif` guard passes, else nothing. -/
def effScore (q : String) (c : Candidate) : Option ℚ :=
  let t := normTitle c
  let e := normEnglish c
  if pySubstr q t || pySubstr t q then some (score q t)
  else if e != "" && (pySubstr q e || pySubstr e q) then some (score q e)
  else none

/-- Lines 63-82 of the source: the scan over the candidate list.  The
state is the `(best_match, best_score)` pair; an exact match returns
immediately (the `break` on line 70). -/
def searchLoop (q : String) : List Candidate → Option Candidate × ℚ →
    Option Candidate × ℚ
  | [], st => st
  | c :: rest, st =>
    if exactQ q c then (some c, st.2)
    else searchLoop q rest (fuzzyUpdate q c st)

/-- Lines 57-93 of the source (`search_manga` after a successful request):
`none` for an empty result list, otherwise the scan's best match, falling
back to the first candidate when the scan found nothing.  Candidate dicts
from the provider are non-empty, hence truthy, so `if not best_match` on
line 85 holds exactly when the scan never set a best match. -/
def searchManga (title : String) (candidates : List Candidate) : Option Candidate :=
  if candidates.isEmpty then none
  else
    match (searchLoop (pyNorm title) candidates (none, 0)).1 with
    | some m => some m
    | none => candidates.head?

/-- Running maximum of the per-candidate scores, seeded with `s`; this is
the value held by `best_score` at the end of a fuzzy scan that started at
`s` (see `searchLoop_score`). -/
def runMax (q : String) (s : ℚ) : List Candidate → ℚ
  | [] => s
  | c :: rest =>
    match effScore q c with
    | some t => runMax q (max s t) rest
    | none => runMax q s rest

/-- Modelled from the wording of claim C2, not from the source: the
substring-and-score test applied to the primary title and, independently,
also to the alternate title when present, keeping the larger of the two
field scores for the candidate.  Compared against `effScore`, which is
what the code computes. -/
def bothFieldMax (query : String) (c : Candidate) : Option ℚ :=
  let q := pyNorm query
  let t := normTitle c
  let e := normEnglish c
  let s1 : Option ℚ :=
    if pySubstr q t || pySubstr t q then some (score q t) else none
  let s2 : Option ℚ :=
    if e != "" && (pySubstr q e || pySubstr e q) then some (score q e) else none
  match s1, s2 with
  | some a, some b => some (max a b)
  | some a, none => some a
  | none, some b => some b
  | none, none => none

/-- Lines 146-155 of the source: `_map_status`, the dictionary lookup with
default 0. -/
def mapStatus (malStatus : String) : ℕ :=
  if malStatus = "Finished" then 2
  else if malStatus = "Publishing" then 1
  else if malStatus = "On Hiatus" then 6
  else if malStatus = "Discontinued" then 5
  else if malStatus = "Not yet published" then 0
  else 0

/-- The record written to `details.json` (lines 126-134 of the source);
the static `_status values` legend is a constant list and is omitted. -/
structure Details where
  title : String
  author : String
  artist : String
  description : String
  genre : List String
  status : ℕ
deriving DecidableEq

/-- Lines 126-134 of the source: the pure field mapping performed by
`create_details_json` before writing. -/
def detailsOf (c : Candidate) : Details :=
  ⟨c.title.getD "",
   String.intercalate ", " (c.authors.getD []),
   String.intercalate ", " (c.authors.getD []),
   c.synopsis.getD "",
   c.genres.getD [],
   mapStatus (c.status.getD "")⟩

/-- Lines 194-198 of the source, Python truthiness based:
`url = large; if not url: url = standard`, then `if url:`. -/
def coverUrl (c : Candidate) : Option String :=
  let first :=
    match c.large_image_url with
    | some s => if s = "" then c.image_url else some s
    | none => c.image_url
  match first with
  | some s => if s = "" then none else some s
  | none => none

/-- Observable effects of processing one directory, in program order:
the two outbound network calls, the rate-limit sleep, and the two file
writes. -/
inductive Effect where
  | searchCall
  | downloadCall
  | sleep
  | writeDetails
  | writeCover
deriving DecidableEq

/-- Which output artifacts of a directory exist before processing. -/
structure DirState where
  detailsExists : Bool
  coverExists : Bool
deriving DecidableEq

/-- Outcomes of the external world for one directory: the body of a
successful search response (`none` models a request failure), and whether
the details write and the cover download succeed (the source catches
their exceptions and turns them into `False` returns). -/
structure Env where
  searchResponse : Option (List Candidate)
  detailsWriteOk : Bool
  downloadOk : Bool
deriving DecidableEq

/-- Line 162 of the source: the two reserved directory names. -/
def RESERVED : List String := ["free maga downloader 2", "Kindle Comic Converter"]

/-- What `search_manga(name)` returns: `None` on request failure or an
empty result list, otherwise the matcher's choice. -/
def searchOutcome (name : String) (env : Env) : Option Candidate :=
  env.searchResponse.bind (fun cands => searchManga name cands)

/-- Lines 157-204 of the source, `process_manga_directory`: returns the
boolean result, the directory state afterwards, and the ordered effect
trace.  A reserved name returns `False` at once; a directory with both
artifacts returns `True` at once; a failed search returns `False` right
after the search call, before any sleep; otherwise the details file is
written if absent (the write's boolean result is discarded, line 190),
the cover is downloaded if absent and a URL resolves, and `True` is
returned. -/
def processMangaDirectory (name : String) (st : DirState) (env : Env) :
    Bool × DirState × List Effect :=
  if name ∈ RESERVED then (false, st, [])
  else if st.detailsExists && st.coverExists then (true, st, [])
  else
    match searchOutcome name env with
    | none => (false, st, [Effect.searchCall])
    | some manga =>
      let st1 : DirState :=
        if st.detailsExists then st else ⟨env.detailsWriteOk, st.coverExists⟩
      let detailEffs : List Effect :=
        if st.detailsExists then [] else [Effect.writeDetails]
      let cover : DirState × List Effect :=
        if st.coverExists then (st1, [])
        else
          match coverUrl manga with
          | some _ =>
            (⟨st1.detailsExists, env.downloadOk⟩,
             Effect.downloadCall ::
               ((if env.downloadOk then [Effect.writeCover] else []) ++ [Effect.sleep]))
          | none => (st1, [])
      (true, cover.1, Effect.searchCall :: Effect.sleep :: (detailEffs ++ cover.2))

/-- The three counters printed by the run summary (lines 216-241). -/
structure RunCounts where
  success : ℕ
  failed : ℕ
  skipped : ℕ
deriving DecidableEq

/-- Lines 216-232 of the source, `process_all_manga`: each entry is one
directory together with its environment; `True` results increment the
success counter, `False` results increment the skipped counter for
reserved names and the failed counter otherwise.  The Python loop carries
the counters mutably; totals are order-insensitive sums, modelled here by
structural recursion, with the effect traces concatenated in program
order.  (The `except` branch of the loop guards calls that are total in
this model.) -/
def processAll : List (String × DirState × Env) → RunCounts × List Effect
  | [] => (⟨0, 0, 0⟩, [])
  | (name, st, env) :: rest =>
    let r := processMangaDirectory name st env
    let acc := processAll rest
    let counts : RunCounts :=
      if r.1 then ⟨acc.1.success + 1, acc.1.failed, acc.1.skipped⟩
      else if name ∈ RESERVED then ⟨acc.1.success, acc.1.failed, acc.1.skipped + 1⟩
      else ⟨acc.1.success, acc.1.failed + 1, acc.1.skipped⟩
    (counts, r.2.2 ++ acc.2)

/-- True of an outbound network call. -/
def networkEffect : Effect → Bool
  | Effect.searchCall => true
  | Effect.downloadCall => true
  | _ => false

/-- Scan of an effect trace: between any two outbound network calls there
is at least one sleep.  `pending` records whether a call has been seen
with no sleep after it yet. -/
def delayedBetween : Bool → List Effect → Bool
  | _, [] => true
  | pending, e :: rest =>
    if networkEffect e then !pending && delayedBetween true rest
    else if e == Effect.sleep then delayedBetween false rest
    else delayedBetween pending rest

/-- Scan of an effect trace: every outbound network call is followed,
later in the trace and before any further call, by a sleep. -/
def allCallsDelayed : Bool → List Effect → Bool
  | pending, [] => !pending
  | pending, e :: rest =>
    if networkEffect e then !pending && allCallsDelayed true rest
    else if e == Effect.sleep then allCallsDelayed false rest
    else allCallsDelayed pending rest

/-- Certifies the `mkRat` modelling of the score: it is exactly the
division the source writes. -/
theorem score_eq_div (q t : String) :
    score q t = (q.length : ℚ) / (max t.length 1 : ℚ) := by
  unfold score
  rw [Rat.mkRat_eq_div]
  push_cast
  rfl

/-- Reformulation of the fuzzy step through the per-candidate score. -/
theorem fuzzyUpdate_effScore (q : String) (c : Candidate) (st : Option Candidate × ℚ) :
    fuzzyUpdate q c st =
      match effScore q c with
      | some s => if s > st.2 then (some c, s) else st
      | none => st := by
  unfold fuzzyUpdate effScore
  by_cases h1 : (pySubstr q (normTitle c) || pySubstr (normTitle c) q) = true
  · simp [h1]
  · by_cases h2 : (normEnglish c != "" &&
        (pySubstr q (normEnglish c) || pySubstr (normEnglish c) q)) = true
    · simp [h1, h2]
    · simp [h1, h2]

/-- Candidates with no per-candidate score leave the scan state alone. -/
theorem fuzzyUpdate_of_none {q : String} {c : Candidate}
    (st : Option Candidate × ℚ) (h : effScore q c = none) :
    fuzzyUpdate q c st = st := by
  rw [fuzzyUpdate_effScore, h]

/-- The best-so-far pair is kept whenever the new score does not strictly
exceed the running best. -/
theorem fuzzyUpdate_of_le {q : String} {c : Candidate} {s : ℚ}
    (st : Option Candidate × ℚ) (h : effScore q c = some s) (hle : s ≤ st.2) :
    fuzzyUpdate q c st = st := by
  rw [fuzzyUpdate_effScore, h]
  simp [not_lt.mpr hle]

/-- The best-so-far pair is replaced on a strictly greater score. -/
theorem fuzzyUpdate_of_gt {q : String} {c : Candidate} {s : ℚ}
    (st : Option Candidate × ℚ) (h : effScore q c = some s) (hgt : st.2 < s) :
    fuzzyUpdate q c st = (some c, s) := by
  rw [fuzzyUpdate_effScore, h]
  simp [hgt]

/-- When some candidate matches exactly, the scan returns the first one
that does, in list order. -/
theorem searchLoop_exact (q : String) (l : List Candidate) :
    ∀ st, (∃ c ∈ l, exactQ q c = true) →
      (searchLoop q l st).1 = l.find? (exactQ q) := by
  induction l with
  | nil => intro st h; simp at h
  | cons c rest ih =>
    intro st h
    by_cases hc : exactQ q c = true
    · rw [List.find?_cons_of_pos _ hc]
      simp [searchLoop, hc]
    · have hb : exactQ q c = false := by simpa using hc
      rw [List.find?_cons_of_neg _ (by simp [hb])]
      have hrest : ∃ d ∈ rest, exactQ q d = true := by
        obtain ⟨d, hd, hdq⟩ := h
        rcases List.mem_cons.mp hd with rfl | hd
        · exact absurd hdq hc
        · exact ⟨d, hd, hdq⟩
      have hstep : searchLoop q (c :: rest) st = searchLoop q rest (fuzzyUpdate q c st) := by
        simp [searchLoop, hb]
      rw [hstep]
      exact ih _ hrest

/-- C1: exact-match precedence — whenever some candidate's normalised
primary or alternate title equals the normalised query, the matcher
returns the first such candidate in list order, regardless of any fuzzy
matches by earlier candidates. -/
theorem c1_exact_match_precedence (title : String) (l : List Candidate)
    (h : ∃ c ∈ l, exactQ (pyNorm title) c = true) :
    searchManga title l = l.find? (exactQ (pyNorm title)) := by
  obtain ⟨c, hc, hq⟩ := h
  have hne : l.isEmpty = false := by
    cases l
    · simp at hc
    · rfl
  have h1 := searchLoop_exact (pyNorm title) l (none, 0) ⟨c, hc, hq⟩
  have hsome : (l.find? (exactQ (pyNorm title))).isSome := by
    rw [List.find?_isSome]
    exact ⟨c, hc, hq⟩
  obtain ⟨c₀, hc₀⟩ := Option.isSome_iff_exists.mp hsome
  unfold searchManga
  rw [hne, h1, hc₀]
  simp

/-- Witness for C1 at the spec's own example: query `"Foo"`, candidates
`Foobar` then `Foo`; the exact match `Foo` is returned, not the earlier
substring match. -/
theorem c1_witness :
    searchManga "Foo" [mkCand (some "Foobar") none, mkCand (some "Foo") none] =
      [mkCand (some "Foobar") none, mkCand (some "Foo") none].find?
        (exactQ (pyNorm "Foo")) ∧
    [mkCand (some "Foobar") none, mkCand (some "Foo") none].find?
        (exactQ (pyNorm "Foo")) = some (mkCand (some "Foo") none) := by
  refine ⟨c1_exact_match_precedence "Foo" _ ⟨mkCand (some "Foo") none, by decide, by decide⟩, by decide⟩

/-- C3: the status table maps the five provider labels to their fixed
codes, every other label (and an absent one) to 0, and every produced
status code is at most 6. -/
theorem c3_status_mapping :
    mapStatus "Finished" = 2 ∧ mapStatus "Publishing" = 1 ∧
    mapStatus "On Hiatus" = 6 ∧ mapStatus "Discontinued" = 5 ∧
    mapStatus "Not yet published" = 0 ∧
    (∀ s : String,
      s ∉ ["Finished", "Publishing", "On Hiatus", "Discontinued", "Not yet published"] →
      mapStatus s = 0) ∧
    (∀ c : Candidate, c.status = none → (detailsOf c).status = 0) ∧
    (∀ c : Candidate, (detailsOf c).status ≤ 6) := by
  refine ⟨rfl, rfl, rfl, rfl, rfl, ?_, ?_, ?_⟩
  · intro s hs
    simp only [List.mem_cons, List.not_mem_nil, or_false, not_or] at hs
    obtain ⟨h1, h2, h3, h4, h5⟩ := hs
    unfold mapStatus
    simp [h1, h2, h3, h4, h5]
  · intro c hc
    simp [detailsOf, hc]
    rfl
  · intro c
    unfold detailsOf mapStatus
    dsimp only
    split_ifs <;> omega

/-- Witness for C3: the unknown label of the spec's example and an absent
status both map to 0, within the 0..6 range. -/
theorem c3_witness :
    mapStatus "Unreleased" = 0 ∧
    (detailsOf (mkCand none none)).status = 0 ∧
    (detailsOf (mkCand none none)).status ≤ 6 := by
  refine ⟨c3_status_mapping.2.2.2.2.2.1 "Unreleased" (by decide),
          c3_status_mapping.2.2.2.2.2.2.1 (mkCand none none) rfl,
          c3_status_mapping.2.2.2.2.2.2.2 (mkCand none none)⟩

/-- C8: the Field Mapper is total with the documented defaults — missing
title/synopsis become the empty string, a missing genre list the empty
list, a missing status the code 0 — and author and artist are the same
string, the contributor names joined with `", "` in provider order, empty
when there are no contributors. -/
theorem c8_field_mapper_totality (c : Candidate) :
    (detailsOf c).author = (detailsOf c).artist ∧
    (detailsOf c).author = String.intercalate ", " (c.authors.getD []) ∧
    (c.authors.getD [] = [] → (detailsOf c).author = "") ∧
    (c.title = none → (detailsOf c).title = "") ∧
    (c.synopsis = none → (detailsOf c).description = "") ∧
    (c.genres = none → (detailsOf c).genre = []) ∧
    (c.status = none → (detailsOf c).status = 0) := by
  refine ⟨rfl, rfl, ?_, ?_, ?_, ?_, ?_⟩
  · intro h; simp only [detailsOf, h]; rfl
  · intro h; simp [detailsOf, h]
  · intro h; simp [detailsOf, h]
  · intro h; simp [detailsOf, h]
  · intro h; simp only [detailsOf, h]; rfl

/-- Witness for C8 at the all-absent candidate. -/
theorem c8_witness :
    (detailsOf (mkCand none none)).author = (detailsOf (mkCand none none)).artist ∧
    (detailsOf (mkCand none none)).author = "" ∧
    (detailsOf (mkCand none none)).description = "" ∧
    (detailsOf (mkCand none none)).genre = [] ∧
    (detailsOf (mkCand none none)).status = 0 := by
  have h := c8_field_mapper_totality (mkCand none none)
  exact ⟨h.1, h.2.2.1 rfl, h.2.2.2.2.1 rfl, h.2.2.2.2.2.1 rfl, h.2.2.2.2.2.2 rfl⟩

/-- When no candidate matches exactly and none passes a fuzzy substring
test, the scan leaves its state untouched. -/
theorem searchLoop_of_no_match (q : String) (l : List Candidate) :
    ∀ st, (∀ c ∈ l, exactQ q c = false) → (∀ c ∈ l, effScore q c = none) →
      searchLoop q l st = st := by
  induction l with
  | nil => intro st _ _; rfl
  | cons c rest ih =>
    intro st hex hfz
    have hb : exactQ q c = false := hex c (by simp)
    have hstep : searchLoop q (c :: rest) st = searchLoop q rest (fuzzyUpdate q c st) := by
      simp [searchLoop, hb]
    rw [hstep, fuzzyUpdate_of_none st (hfz c (by simp))]
    exact ih st (fun d hd => hex d (by simp [hd])) (fun d hd => hfz d (by simp [hd]))

/-- C7: the Matcher's no-match contract — an empty candidate list yields
`none`; a non-empty list in which no candidate passes the exact test and
no candidate passes a fuzzy substring test yields the first candidate. -/
theorem c7_no_match_contract :
    (∀ title : String, searchManga title [] = none) ∧
    (∀ (title : String) (l : List Candidate), l ≠ [] →
      (∀ c ∈ l, exactQ (pyNorm title) c = false) →
      (∀ c ∈ l, effScore (pyNorm title) c = none) →
      searchManga title l = l.head?) := by
  constructor
  · intro title; rfl
  · intro title l hne hex hfz
    have hempty : l.isEmpty = false := by
      cases l
      · exact absurd rfl hne
      · rfl
    unfold searchManga
    rw [hempty, searchLoop_of_no_match (pyNorm title) l (none, 0) hex hfz]
    simp

/-- Witness for C7: the empty list, and the spec's fallback example —
query `"Qux"` with candidates `Zzz`, `Yyy` returns `Zzz`. -/
theorem c7_witness :
    searchManga "x" ([] : List Candidate) = none ∧
    searchManga "Qux" [mkCand (some "Zzz") none, mkCand (some "Yyy") none] =
      [mkCand (some "Zzz") none, mkCand (some "Yyy") none].head? := by
  exact ⟨c7_no_match_contract.1 "x",
         c7_no_match_contract.2 "Qux" _ (by decide) (by decide) (by decide)⟩

/-- C9: fuzzy tie-break — the best-so-far pair is kept whenever the newly
computed score does not strictly exceed it, so of two candidates with
equal scores the one scanned first is returned. -/
theorem c9_tie_break :
    (∀ (q : String) (c : Candidate) (st : Option Candidate × ℚ) (s : ℚ),
       effScore q c = some s → s ≤ st.2 → fuzzyUpdate q c st = st) ∧
    (∀ (title : String) (c₁ c₂ : Candidate) (s : ℚ),
       exactQ (pyNorm title) c₁ = false → exactQ (pyNorm title) c₂ = false →
       effScore (pyNorm title) c₁ = some s → effScore (pyNorm title) c₂ = some s →
       0 < s → searchManga title [c₁, c₂] = some c₁) := by
  constructor
  · intro q c st s h hle
    exact fuzzyUpdate_of_le st h hle
  · intro title c₁ c₂ s h1 h2 hs1 hs2 hpos
    have e1 : searchLoop (pyNorm title) [c₁, c₂] (none, 0) =
        searchLoop (pyNorm title) [c₂] (fuzzyUpdate (pyNorm title) c₁ (none, 0)) := by
      simp [searchLoop, h1]
    have e2 : fuzzyUpdate (pyNorm title) c₁ (none, 0) = (some c₁, s) :=
      fuzzyUpdate_of_gt _ hs1 hpos
    have e3 : searchLoop (pyNorm title) [c₂] ((some c₁, s) : Option Candidate × ℚ) =
        searchLoop (pyNorm title) [] (fuzzyUpdate (pyNorm title) c₂ (some c₁, s)) := by
      simp [searchLoop, h2]
    have e4 : fuzzyUpdate (pyNorm title) c₂ ((some c₁, s) : Option Candidate × ℚ) =
        (some c₁, s) :=
      fuzzyUpdate_of_le _ hs2 le_rfl
    unfold searchManga
    rw [show ([c₁, c₂] : List Candidate).isEmpty = false from rfl,
        e1, e2, e3, e4]
    rfl

/-- Witness for C9: two candidates both scoring 1/2 on the query `"ab"`;
the state is kept on the equal score and the first candidate is returned. -/
theorem c9_witness :
    fuzzyUpdate "ab" (mkCand (some "abcd") none)
      (some (mkCand (some "zzz") none), mkRat 1 2) =
      (some (mkCand (some "zzz") none), mkRat 1 2) ∧
    searchManga "ab" [mkCand (some "abcd") none, mkCand (some "ab c") none] =
      some (mkCand (some "abcd") none) := by
  exact ⟨c9_tie_break.1 "ab" _ _ (mkRat 1 2) (by decide) (by decide),
         c9_tie_break.2 "ab" _ _ (mkRat 1 2) (by decide) (by decide)
           (by decide) (by decide) (by decide)⟩

/-- The seed never exceeds the running maximum. -/
theorem le_runMax (q : String) (l : List Candidate) : ∀ s : ℚ, s ≤ runMax q s l := by
  induction l with
  | nil => intro s; exact le_rfl
  | cons c rest ih =>
    intro s
    cases h : effScore q c with
    | none =>
      rw [show runMax q s (c :: rest) = runMax q s rest from by simp [runMax, h]]
      exact ih s
    | some t =>
      rw [show runMax q s (c :: rest) = runMax q (max s t) rest from by simp [runMax, h]]
      exact le_trans (le_max_left s t) (ih (max s t))

/-- The running maximum is either the seed or a score attained by some
candidate in the list. -/
theorem runMax_attained (q : String) (l : List Candidate) :
    ∀ s : ℚ, runMax q s l = s ∨ ∃ c ∈ l, effScore q c = some (runMax q s l) := by
  induction l with
  | nil => intro s; exact Or.inl rfl
  | cons c rest ih =>
    intro s
    cases h : effScore q c with
    | none =>
      have hr : runMax q s (c :: rest) = runMax q s rest := by simp [runMax, h]
      rcases ih s with h1 | ⟨d, hd, hds⟩
      · exact Or.inl (by rw [hr, h1])
      · exact Or.inr ⟨d, by simp [hd], by rw [hr]; exact hds⟩
    | some t =>
      have hr : runMax q s (c :: rest) = runMax q (max s t) rest := by simp [runMax, h]
      rcases ih (max s t) with h1 | ⟨d, hd, hds⟩
      · rcases max_cases s t with ⟨hm, _⟩ | ⟨hm, _⟩
        · exact Or.inl (by rw [hr, h1, hm])
        · refine Or.inr ⟨c, by simp, ?_⟩
          rw [hr, h1, hm]
          exact h
      · exact Or.inr ⟨d, by simp [hd], by rw [hr]; exact hds⟩

/-- The final `best_score` of a fuzzy scan is the running maximum of the
per-candidate scores. -/
theorem searchLoop_score (q : String) (l : List Candidate) :
    ∀ st, (∀ c ∈ l, exactQ q c = false) →
      (searchLoop q l st).2 = runMax q st.2 l := by
  induction l with
  | nil => intro st _; rfl
  | cons c rest ih =>
    intro st hex
    have hb : exactQ q c = false := hex c (by simp)
    have hstep : searchLoop q (c :: rest) st = searchLoop q rest (fuzzyUpdate q c st) := by
      simp [searchLoop, hb]
    have hrest : ∀ d ∈ rest, exactQ q d = false := fun d hd => hex d (by simp [hd])
    rw [hstep, ih _ hrest]
    cases h : effScore q c with
    | none =>
      rw [fuzzyUpdate_of_none st h]
      simp [runMax, h]
    | some t =>
      by_cases hgt : st.2 < t
      · rw [fuzzyUpdate_of_gt st h hgt]
        simp [runMax, h, max_eq_right (le_of_lt hgt)]
      · rw [fuzzyUpdate_of_le st h (not_lt.mp hgt)]
        simp [runMax, h, max_eq_left (not_lt.mp hgt)]

/-- A fuzzy scan in which no candidate beats the seeded score leaves its
state untouched. -/
theorem searchLoop_stable (q : String) (l : List Candidate) :
    ∀ st, (∀ c ∈ l, exactQ q c = false) → runMax q st.2 l = st.2 →
      searchLoop q l st = st := by
  induction l with
  | nil => intro st _ _; rfl
  | cons c rest ih =>
    intro st hex hmax
    have hb : exactQ q c = false := hex c (by simp)
    have hstep : searchLoop q (c :: rest) st = searchLoop q rest (fuzzyUpdate q c st) := by
      simp [searchLoop, hb]
    have hrest : ∀ d ∈ rest, exactQ q d = false := fun d hd => hex d (by simp [hd])
    rw [hstep]
    cases h : effScore q c with
    | none =>
      have hr : runMax q st.2 (c :: rest) = runMax q st.2 rest := by simp [runMax, h]
      rw [fuzzyUpdate_of_none st h]
      exact ih st hrest (by rw [← hr]; exact hmax)
    | some t =>
      have hr : runMax q st.2 (c :: rest) = runMax q (max st.2 t) rest := by
        simp [runMax, h]
      have h1 : max st.2 t ≤ st.2 := by
        calc max st.2 t ≤ runMax q (max st.2 t) rest := le_runMax q rest (max st.2 t)
        _ = st.2 := by rw [← hr, hmax]
      have ht : t ≤ st.2 := le_trans (le_max_right _ _) h1
      have hm : max st.2 t = st.2 := max_eq_left ht
      rw [fuzzyUpdate_of_le st h ht]
      refine ih st hrest ?_
      rw [hm] at hr
      rw [← hr]
      exact hmax

/-- When no candidate matches exactly and some candidate's score beats
the seed, the scan's final best match is the first candidate in list
order whose per-candidate score attains the running maximum. -/
theorem searchLoop_argmax (q : String) (l : List Candidate) :
    ∀ st : Option Candidate × ℚ, (∀ c ∈ l, exactQ q c = false) →
      st.2 < runMax q st.2 l →
      (searchLoop q l st).1 =
        l.find? (fun c => decide (effScore q c = some (runMax q st.2 l))) := by
  induction l with
  | nil =>
    intro st _ hlt
    exact absurd hlt (lt_irrefl st.2)
  | cons c rest ih =>
    intro st hex hlt
    have hb : exactQ q c = false := hex c (by simp)
    have hrest : ∀ d ∈ rest, exactQ q d = false := fun d hd => hex d (by simp [hd])
    have hstep : searchLoop q (c :: rest) st = searchLoop q rest (fuzzyUpdate q c st) := by
      simp [searchLoop, hb]
    rw [hstep]
    cases h : effScore q c with
    | none =>
      have hr : runMax q st.2 (c :: rest) = runMax q st.2 rest := by simp [runMax, h]
      rw [hr, fuzzyUpdate_of_none st h,
          List.find?_cons_of_neg _ (by simp [h])]
      exact ih st hrest (by rw [← hr]; exact hlt)
    | some t =>
      have hr : runMax q st.2 (c :: rest) = runMax q (max st.2 t) rest := by
        simp [runMax, h]
      by_cases hgt : st.2 < t
      · have hmx : max st.2 t = t := max_eq_right (le_of_lt hgt)
        rw [hmx] at hr
        by_cases heq : runMax q t rest = t
        · rw [hr, heq, fuzzyUpdate_of_gt st h hgt,
              searchLoop_stable q rest (some c, t) hrest heq,
              List.find?_cons_of_pos _ (by simp [h])]
        · have hlt2 : t < runMax q t rest :=
            lt_of_le_of_ne (le_runMax q rest t) (Ne.symm heq)
          rw [hr, fuzzyUpdate_of_gt st h hgt,
              List.find?_cons_of_neg _ (by simp [h]; exact ne_of_lt hlt2)]
          exact ih (some c, t) hrest hlt2
      · have hle : t ≤ st.2 := not_lt.mp hgt
        have hmx : max st.2 t = st.2 := max_eq_left hle
        rw [hmx] at hr
        have hlt2 : st.2 < runMax q st.2 rest := by rw [← hr]; exact hlt
        rw [hr, fuzzyUpdate_of_le st h hle,
            List.find?_cons_of_neg _ (by simp [h]; exact ne_of_lt (lt_of_le_of_lt hle hlt2))]
        exact ih st hrest hlt2

/-- C2 is false of the code: for query `"ab"` the first candidate's
alternate-title score 2/3 is the single maximum across both fields of all
candidates, yet the matcher returns the second candidate, because the
`elif` on line 78 never scores an alternate title once the primary-title
substring test has passed. -/
theorem c2_counterexample :
    searchManga "ab" [mkCand (some "abcdef") (some "abc"), mkCand (some "abcd") none] =
      some (mkCand (some "abcd") none) ∧
    bothFieldMax "ab" (mkCand (some "abcdef") (some "abc")) = some (mkRat 2 3) ∧
    bothFieldMax "ab" (mkCand (some "abcd") none) = some (mkRat 1 2) ∧
    mkRat 1 2 < mkRat 2 3 ∧
    mkCand (some "abcd") none ≠ mkCand (some "abcdef") (some "abc") := by
  decide

/-- C2 (amended): when no candidate matches exactly, each candidate
contributes at most one score — the primary-title score when the primary
substring test passes, otherwise the alternate-title score when that test
passes (`effScore`) — and if any contributed score is positive the
matcher returns the first candidate in list order whose contributed score
attains the maximum across all candidates. -/
theorem c2_amended (title : String) (l : List Candidate)
    (hne : l ≠ [])
    (hex : ∀ c ∈ l, exactQ (pyNorm title) c = false)
    (hpos : 0 < runMax (pyNorm title) 0 l) :
    searchManga title l =
      l.find? (fun c =>
        decide (effScore (pyNorm title) c = some (runMax (pyNorm title) 0 l))) := by
  have hempty : l.isEmpty = false := by
    cases l
    · exact absurd rfl hne
    · rfl
  have harg := searchLoop_argmax (pyNorm title) l (none, 0) hex hpos
  have hsome : (l.find? (fun c =>
      decide (effScore (pyNorm title) c = some (runMax (pyNorm title) 0 l)))).isSome := by
    rw [List.find?_isSome]
    rcases runMax_attained (pyNorm title) l 0 with h0 | ⟨c, hc, hcs⟩
    · rw [h0] at hpos
      exact absurd hpos (lt_irrefl 0)
    · exact ⟨c, hc, by simp [hcs]⟩
  obtain ⟨c₀, hc₀⟩ := Option.isSome_iff_exists.mp hsome
  unfold searchManga
  rw [hempty, harg, hc₀]
  simp

/-- Witness for C2 (amended) at the counterexample's own input. -/
theorem c2_witness :
    searchManga "ab" [mkCand (some "abcdef") (some "abc"), mkCand (some "abcd") none] =
      [mkCand (some "abcdef") (some "abc"), mkCand (some "abcd") none].find?
        (fun c => decide (effScore (pyNorm "ab") c =
          some (runMax (pyNorm "ab") 0
            [mkCand (some "abcdef") (some "abc"), mkCand (some "abcd") none]))) := by
  exact c2_amended "ab" _ (by decide) (by decide) (by decide)

/-- A reserved directory name is returned to immediately, with no effect. -/
theorem processMangaDirectory_reserved (name : String) (st : DirState) (env : Env)
    (h : name ∈ RESERVED) :
    processMangaDirectory name st env = (false, st, []) := by
  unfold processMangaDirectory
  simp [h]

/-- C4: idempotent skip — an entry whose `details.json` and `cover.jpg`
both already exist is processed with an empty effect trace (no network
call, no sleep, no write) and an unchanged directory state, and a run
over a list of such entries produces an empty trace altogether. -/
theorem c4_idempotent_skip :
    (∀ (name : String) (st : DirState) (env : Env),
       st.detailsExists = true → st.coverExists = true →
       (processMangaDirectory name st env).2.1 = st ∧
       (processMangaDirectory name st env).2.2 = []) ∧
    (∀ entries : List (String × DirState × Env),
       (∀ e ∈ entries, e.2.1.detailsExists = true ∧ e.2.1.coverExists = true) →
       (processAll entries).2 = []) := by
  have hone : ∀ (name : String) (st : DirState) (env : Env),
      st.detailsExists = true → st.coverExists = true →
      (processMangaDirectory name st env).2.1 = st ∧
      (processMangaDirectory name st env).2.2 = [] := by
    intro name st env hd hc
    unfold processMangaDirectory
    by_cases h : name ∈ RESERVED
    · simp [h]
    · simp [h, hd, hc]
  refine ⟨hone, ?_⟩
  intro entries
  induction entries with
  | nil => intro _; rfl
  | cons e rest ih =>
    intro hall
    obtain ⟨name, st, env⟩ := e
    have h1 := hall (name, st, env) (List.mem_cons_self _ _)
    have h2 := hone name st env h1.1 h1.2
    have h3 := ih (fun d hd => hall d (List.mem_cons_of_mem _ hd))
    show (processAll ((name, st, env) :: rest)).2 = []
    simp [processAll, h2.2, h3]

/-- Witness for C4 at a directory with both artifacts present. -/
theorem c4_witness :
    (processMangaDirectory "Ggg" ⟨true, true⟩ ⟨none, true, true⟩).2.1 = ⟨true, true⟩ ∧
    (processMangaDirectory "Ggg" ⟨true, true⟩ ⟨none, true, true⟩).2.2 = [] ∧
    (processAll [("Ggg", ⟨true, true⟩, ⟨none, true, true⟩)]).2 = [] := by
  refine ⟨(c4_idempotent_skip.1 "Ggg" ⟨true, true⟩ ⟨none, true, true⟩ rfl rfl).1,
          (c4_idempotent_skip.1 "Ggg" ⟨true, true⟩ ⟨none, true, true⟩ rfl rfl).2,
          c4_idempotent_skip.2 _ (by decide)⟩

/-- Delay bookkeeping composes over concatenated traces. -/
theorem allCallsDelayed_append (t1 t2 : List Effect) :
    ∀ p, allCallsDelayed p t1 = true → allCallsDelayed false t2 = true →
      allCallsDelayed p (t1 ++ t2) = true := by
  induction t1 with
  | nil =>
    intro p h1 h2
    cases p
    · simpa using h2
    · simp [allCallsDelayed] at h1
  | cons e rest ih =>
    intro p h1 h2
    by_cases hn : networkEffect e = true
    · simp only [allCallsDelayed, hn, List.cons_append, if_true, Bool.and_eq_true] at h1 ⊢
      exact ⟨h1.1, ih true h1.2 h2⟩
    · by_cases hs : e = Effect.sleep
      · subst hs
        simp only [allCallsDelayed, List.cons_append, networkEffect,
          Bool.false_eq_true, if_false, beq_self_eq_true, if_true] at h1 ⊢
        exact ih false h1 h2
      · have hbeq : (e == Effect.sleep) = false := by
          simp [hs]
        simp only [allCallsDelayed, hn, hbeq, List.cons_append,
          Bool.false_eq_true, if_false] at h1 ⊢
        exact ih p h1 h2

/-- C5 is false of the code: a search that yields no metadata returns
before any sleep, so a run can issue two consecutive outbound calls with
no sleep between them. -/
theorem c5_counterexample :
    delayedBetween false
      (processAll
        [("Aaa", ⟨false, false⟩, ⟨none, true, true⟩),
         ("Bbb", ⟨false, false⟩,
          ⟨some [(⟨some "Bbb", none, none, none, none, none, some "u", none⟩ : Candidate)],
           true, true⟩)]).2 = false ∧
    (processAll
        [("Aaa", ⟨false, false⟩, ⟨none, true, true⟩),
         ("Bbb", ⟨false, false⟩,
          ⟨some [(⟨some "Bbb", none, none, none, none, none, some "u", none⟩ : Candidate)],
           true, true⟩)]).2 =
      [Effect.searchCall, Effect.searchCall, Effect.sleep, Effect.writeDetails,
       Effect.downloadCall, Effect.writeCover, Effect.sleep] := by
  decide

/-- C5 (amended): a sleep follows the search call whenever the search
yields metadata, and every download call is followed by a sleep, so runs
whose searches all yield metadata are fully delayed; but a search that
fails or yields no metadata ends its entry's processing with a bare
search call and no sleep after it. -/
theorem c5_amended :
    (∀ (name : String) (st : DirState) (env : Env),
       (searchOutcome name env).isSome = true →
       allCallsDelayed false (processMangaDirectory name st env).2.2 = true) ∧
    (∀ entries : List (String × DirState × Env),
       (∀ e ∈ entries, (searchOutcome e.1 e.2.2).isSome = true) →
       allCallsDelayed false (processAll entries).2 = true) ∧
    (∀ (name : String) (st : DirState) (env : Env),
       env.searchResponse = none → (st.detailsExists && st.coverExists) = false →
       name ∉ RESERVED →
       (processMangaDirectory name st env).2.2 = [Effect.searchCall]) := by
  have hone : ∀ (name : String) (st : DirState) (env : Env),
      (searchOutcome name env).isSome = true →
      allCallsDelayed false (processMangaDirectory name st env).2.2 = true := by
    intro name st env hsome
    obtain ⟨m, hm⟩ := Option.isSome_iff_exists.mp hsome
    unfold processMangaDirectory
    by_cases hres : name ∈ RESERVED
    · simp [hres]
      rfl
    · by_cases hex : (st.detailsExists && st.coverExists) = true
      · simp [hres, hex]
        rfl
      · by_cases hd : st.detailsExists <;> by_cases hc : st.coverExists <;>
          cases hcu : coverUrl m <;> by_cases hdl : env.downloadOk <;>
            simp [hres, hex, hm, hd, hc, hcu, hdl, allCallsDelayed, networkEffect]
  refine ⟨hone, ?_, ?_⟩
  · intro entries
    induction entries with
    | nil => intro _; rfl
    | cons e rest ih =>
      intro hall
      obtain ⟨name, st, env⟩ := e
      have h1 := hone name st env (hall (name, st, env) (List.mem_cons_self _ _))
      have h3 := ih (fun d hd => hall d (List.mem_cons_of_mem _ hd))
      show allCallsDelayed false (processAll ((name, st, env) :: rest)).2 = true
      have hsplit : (processAll ((name, st, env) :: rest)).2 =
          (processMangaDirectory name st env).2.2 ++ (processAll rest).2 := by
        simp [processAll]
      rw [hsplit]
      exact allCallsDelayed_append _ _ false h1 h3
  · intro name st env hresp hex hres
    have hout : searchOutcome name env = none := by
      simp [searchOutcome, hresp]
    unfold processMangaDirectory
    simp [hres, hex, hout]

/-- Witness for C5 (amended): a successful entry's trace is fully
delayed, a failed search's trace is the bare call. -/
theorem c5_witness :
    allCallsDelayed false
      (processMangaDirectory "Bbb" ⟨false, false⟩
        ⟨some [(⟨some "Bbb", none, none, none, none, none, some "u", none⟩ : Candidate)],
         true, true⟩).2.2 = true ∧
    (processMangaDirectory "Aaa" ⟨false, false⟩ ⟨none, true, true⟩).2.2 =
      [Effect.searchCall] := by
  exact ⟨c5_amended.1 "Bbb" _ _ (by decide),
         c5_amended.2.2 "Aaa" _ _ rfl rfl (by decide)⟩

/-- C6 is false of the code: with a failing details write the entry still
returns `True` and the run counts it as successfully processed (the write
was attempted — `writeDetails` is in the trace — and produced no file). -/
theorem c6_counterexample :
    (processMangaDirectory "Ccc" ⟨false, false⟩
       ⟨some [mkCand (some "Ccc") none], false, true⟩).1 = true ∧
    Effect.writeDetails ∈ (processMangaDirectory "Ccc" ⟨false, false⟩
       ⟨some [mkCand (some "Ccc") none], false, true⟩).2.2 ∧
    (processMangaDirectory "Ccc" ⟨false, false⟩
       ⟨some [mkCand (some "Ccc") none], false, true⟩).2.1.detailsExists = false ∧
    (processAll [("Ccc", ⟨false, false⟩,
       ⟨some [mkCand (some "Ccc") none], false, true⟩)]).1 = ⟨1, 0, 0⟩ := by
  decide

/-- C6 (amended): a failed `details.json` write is caught — processing
continues normally — but the write's boolean result is discarded, so the
entry still returns `True` and is counted as successfully processed, not
as failed. -/
theorem c6_amended (name : String) (st : DirState) (env : Env)
    (hres : name ∉ RESERVED)
    (hd : st.detailsExists = false)
    (hw : env.detailsWriteOk = false)
    (hs : (searchOutcome name env).isSome = true) :
    (processMangaDirectory name st env).1 = true ∧
    Effect.writeDetails ∈ (processMangaDirectory name st env).2.2 ∧
    (processMangaDirectory name st env).2.1.detailsExists = false ∧
    (processAll [(name, st, env)]).1 = ⟨1, 0, 0⟩ := by
  obtain ⟨m, hm⟩ := Option.isSome_iff_exists.mp hs
  have h1 : (processMangaDirectory name st env).1 = true := by
    unfold processMangaDirectory
    simp [hres, hd, hm]
  have h2 : Effect.writeDetails ∈ (processMangaDirectory name st env).2.2 := by
    unfold processMangaDirectory
    simp [hres, hd, hm]
  have h3 : (processMangaDirectory name st env).2.1.detailsExists = false := by
    unfold processMangaDirectory
    by_cases hc : st.coverExists <;> cases hcu : coverUrl m <;>
      simp [hres, hd, hm, hc, hcu, hw]
  have h4 : (processAll [(name, st, env)]).1 = ⟨1, 0, 0⟩ := by
    simp [processAll, h1]
  exact ⟨h1, h2, h3, h4⟩

/-- Witness for C6 (amended). -/
theorem c6_witness :
    (processMangaDirectory "Ddd" ⟨false, false⟩
       ⟨some [mkCand (some "Ddd") none], false, true⟩).1 = true ∧
    Effect.writeDetails ∈ (processMangaDirectory "Ddd" ⟨false, false⟩
       ⟨some [mkCand (some "Ddd") none], false, true⟩).2.2 ∧
    (processMangaDirectory "Ddd" ⟨false, false⟩
       ⟨some [mkCand (some "Ddd") none], false, true⟩).2.1.detailsExists = false ∧
    (processAll [("Ddd", ⟨false, false⟩,
       ⟨some [mkCand (some "Ddd") none], false, true⟩)]).1 = ⟨1, 0, 0⟩ := by
  exact c6_amended "Ddd" _ _ (by decide) rfl rfl (by decide)

/-- C10: summary-counter semantics — an entry skipped because both
artifacts exist is counted as successfully processed, not as skipped; the
skipped counter counts exactly the entries with a reserved name; an entry
whose search yields no metadata is counted as failed. -/
theorem c10_summary_counters :
    (∀ (name : String) (st : DirState) (env : Env),
       name ∉ RESERVED → st.detailsExists = true → st.coverExists = true →
       (processAll [(name, st, env)]).1 = ⟨1, 0, 0⟩) ∧
    (∀ entries : List (String × DirState × Env),
       (processAll entries).1.skipped =
         (entries.filter (fun e => decide (e.1 ∈ RESERVED))).length) ∧
    (∀ (name : String) (st : DirState) (env : Env),
       name ∉ RESERVED → (st.detailsExists && st.coverExists) = false →
       searchOutcome name env = none →
       (processAll [(name, st, env)]).1 = ⟨0, 1, 0⟩) := by
  refine ⟨?_, ?_, ?_⟩
  · intro name st env hres hd hc
    have h1 : (processMangaDirectory name st env).1 = true := by
      unfold processMangaDirectory
      simp [hres, hd, hc]
    simp [processAll, h1]
  · intro entries
    induction entries with
    | nil => rfl
    | cons e rest ih =>
      obtain ⟨name, st, env⟩ := e
      by_cases hres : name ∈ RESERVED
      · have hfalse : (processMangaDirectory name st env).1 = false := by
          rw [processMangaDirectory_reserved name st env hres]
        simp [processAll, hfalse, hres, ih]
      · by_cases hr : (processMangaDirectory name st env).1 = true
        · simp [processAll, hr, hres, ih]
        · have hr2 : (processMangaDirectory name st env).1 = false := by
            simpa using hr
          simp [processAll, hr2, hres, ih]
  · intro name st env hres hex hout
    have h1 : (processMangaDirectory name st env).1 = false := by
      unfold processMangaDirectory
      simp [hres, hex, hout]
    have hresb : (name ∈ RESERVED) = False := by
      simp [hres]
    simp [processAll, h1, hresb]

/-- Witness for C10: an already-complete entry counts as success, a
reserved entry as skipped, a no-metadata entry as failed. -/
theorem c10_witness :
    (processAll [("Eee", ⟨true, true⟩, ⟨none, true, true⟩)]).1 = ⟨1, 0, 0⟩ ∧
    (processAll [("Kindle Comic Converter", ⟨false, false⟩, ⟨none, true, true⟩)]).1.skipped =
      ([("Kindle Comic Converter", (⟨false, false⟩ : DirState),
         (⟨none, true, true⟩ : Env))].filter
        (fun e => decide (e.1 ∈ RESERVED))).length ∧
    (processAll [("Fff", ⟨false, false⟩, ⟨none, true, true⟩)]).1 = ⟨0, 1, 0⟩ := by
  exact ⟨c10_summary_counters.1 "Eee" _ _ (by decide) rfl rfl,
         c10_summary_counters.2.1 _,
         c10_summary_counters.2.2 "Fff" _ _ (by decide) rfl rfl⟩

end FetchMetadata
